import Mathlib

/-!
Shallow embedding of the Edumentor-AI core (text metrics, retriever
confidence logic, ingestion dedup loop, learner profile, evaluation
logger) together with theorems checking the natural-language
specification against it.

Modelling conventions:
* Python floats are modelled as exact rationals (`ℚ`); the transcendental
  part of BLEU (`math.exp` / `math.log`) is modelled over `ℝ`.
* `round(x, k)` is modelled as exact round-half-to-even at `k` decimal
  places (`round4`, `round1`).
* Python's `re.findall(r"\w+", text.lower())` is modelled over the ASCII
  fragment: word characters are alphanumerics and underscore.
* External collaborators (PDF parser, splitter, embedding provider,
  vector index, SHA-256) are parameters of the embedded functions.
-/

/-- Round-half-to-even of a value in a linear ordered field with floor,
mirroring Python's `round` tie-breaking. -/
def roundHalfEven {K : Type} [LinearOrderedField K] [FloorRing K] (x : K) : ℤ :=
  if x - ⌊x⌋ < 1 / 2 then ⌊x⌋
  else if 1 / 2 < x - ⌊x⌋ then ⌊x⌋ + 1
  else if ⌊x⌋ % 2 = 0 then ⌊x⌋ else ⌊x⌋ + 1

/-- Python `round(x, 4)`. -/
def round4 {K : Type} [LinearOrderedField K] [FloorRing K] (x : K) : K :=
  ((roundHalfEven (x * 10000) : ℤ) : K) / 10000

/-- Python `round(x, 1)`. -/
def round1 {K : Type} [LinearOrderedField K] [FloorRing K] (x : K) : K :=
  ((roundHalfEven (x * 10) : ℤ) : K) / 10

/-- Word characters of the regex `\w` (ASCII fragment). -/
def isWordChar (c : Char) : Bool := c.isAlphanum || c = '_'

/-- Split a character list into the maximal runs of word characters,
accumulating the current (reversed) run; this is `re.findall(r"\w+", ·)`. -/
def wordRuns : List Char → List Char → List String
  | [], acc => if acc = [] then [] else [acc.reverse.asString]
  | c :: cs, acc =>
    if isWordChar c then wordRuns cs (c :: acc)
    else if acc = [] then wordRuns cs [] else acc.reverse.asString :: wordRuns cs []

/-- Source `eval/metrics.py _tokenize`: lowercase, then extract `\w+` runs. -/
def _tokenize (text : String) : List String :=
  wordRuns (text.toList.map Char.toLower) []

/-- Length of the longest common subsequence, stated semantically: the
maximum length over all common sublists (order-preserving subsequences). -/
def lcsSpec {α : Type} [DecidableEq α] (x y : List α) : ℕ :=
  (((x.sublists).filter (fun s => decide (List.Sublist s y))).map List.length).foldr max 0

/-- Inner loop of the rolling-row DP in `eval/metrics.py _lcs_length`:
walks the remaining suffix of `y`, carrying `curr[j-1]` in `left` and the
suffix of the previous row starting at `j-1` in `prev`. -/
def lcsInner {α : Type} [DecidableEq α] (a : α) : List α → ℕ → List ℕ → List ℕ
  | [], _, _ => []
  | b :: ys, left, prev =>
    let c := if a = b then prev.headD 0 + 1 else max left ((prev.drop 1).headD 0)
    c :: lcsInner a ys c (prev.drop 1)

/-- One outer-loop iteration of `_lcs_length`: from row `prev` for the
processed prefix of `x`, produce the row after also processing `a`. -/
def lcsRowStep {α : Type} [DecidableEq α] (y : List α) (prev : List ℕ) (a : α) : List ℕ :=
  0 :: lcsInner a y 0 prev

/-- Source `eval/metrics.py _lcs_length`: the space-optimized LCS dynamic
program (rolling rows); returns `prev[n]` of the final row. -/
def _lcs_length {α : Type} [DecidableEq α] (x y : List α) : ℕ :=
  if x.length = 0 ∨ y.length = 0 then 0
  else
    (x.foldl (lcsRowStep y) (List.replicate (y.length + 1) 0)).getD y.length 0

/-- Result record of `compute_rouge_l`. -/
structure RougeResult where
  precision : ℚ
  «recall» : ℚ
  f1 : ℚ
deriving DecidableEq

/-- Source `eval/metrics.py compute_rouge_l`, translated clause by clause. -/
def compute_rouge_l (hypothesis reference : String) : RougeResult :=
  let hyp_tokens := _tokenize hypothesis
  let ref_tokens := _tokenize reference
  if hyp_tokens = [] ∨ ref_tokens = [] then ⟨0, 0, 0⟩
  else
    let lcs := _lcs_length hyp_tokens ref_tokens
    let precision : ℚ := if hyp_tokens ≠ [] then (lcs : ℚ) / hyp_tokens.length else 0
    let «recall» : ℚ := if ref_tokens ≠ [] then (lcs : ℚ) / ref_tokens.length else 0
    let f1 : ℚ := if precision + «recall» = 0 then 0
      else 2 * precision * «recall» / (precision + «recall»)
    ⟨round4 precision, round4 «recall», round4 f1⟩

/-- The list of n-grams of a token list, in order; empty when the list is
shorter than `n` (Python's `range(len(tokens) - n + 1)` is then empty).
The multiset built by `eval/metrics.py _count_ngrams` counts exactly the
occurrences in this list. -/
def ngramList (tokens : List String) (n : ℕ) : List (List String) :=
  if tokens.length < n then []
  else (List.range (tokens.length - n + 1)).map (fun i => (tokens.drop i).take n)

/-- Clipped n-gram count of `compute_bleu`: per distinct hypothesis
n-gram, the minimum of its hypothesis and reference occurrence counts. -/
def clippedCount (hyp_tokens ref_tokens : List String) (n : ℕ) : ℕ :=
  ((ngramList hyp_tokens n).dedup.map
    (fun g => min ((ngramList hyp_tokens n).count g) ((ngramList ref_tokens n).count g))).sum

/-- Modified n-gram precisions of `compute_bleu`, for n = 1..max_n. -/
def bleuPrecisions (hyp_tokens ref_tokens : List String) (max_n : ℕ) : List ℚ :=
  (List.range max_n).map (fun k =>
    let n := k + 1
    let total := (ngramList hyp_tokens n).length
    if total = 0 then 0 else (clippedCount hyp_tokens ref_tokens n : ℚ) / total)

/-- Result record of `compute_bleu`; the geometric-mean factor is real
valued (the source uses `math.log` / `math.exp`). -/
structure BleuResult where
  bleu : ℝ
  precisions : List ℚ

/-- Source `eval/metrics.py compute_bleu`, translated clause by clause.  The
source's loop sets `log_avg = -inf` and breaks as soon as a precision is
0, making the final `math.exp` result 0; that float idiom is embedded as
the zero-membership conditional. -/
noncomputable def compute_bleu (hypothesis reference : String) (max_n : ℕ) : BleuResult :=
  let hyp_tokens := _tokenize hypothesis
  let ref_tokens := _tokenize reference
  if hyp_tokens = [] ∨ ref_tokens = [] then ⟨0, List.replicate max_n 0⟩
  else
    let precisions := bleuPrecisions hyp_tokens ref_tokens max_n
    let geo : ℝ := if (0 : ℚ) ∈ precisions then 0
      else Real.exp ((precisions.map (fun p : ℚ => Real.log (p : ℝ) / (precisions.length : ℝ))).sum)
    let bp : ℚ := if ref_tokens = [] then 0
      else min 1 ((hyp_tokens.length : ℚ) / ref_tokens.length)
    ⟨round4 (geo * (bp : ℝ)), precisions.map round4⟩

/-- The geometric mean as the specification words it: the `n`-th root of
the product of the `n` precisions, and 0 if any precision is exactly 0. -/
noncomputable def geoMeanSpec (ps : List ℚ) : ℝ :=
  if (0 : ℚ) ∈ ps then 0
  else ((ps.map (fun p : ℚ => (p : ℝ))).prod) ^ ((1 : ℝ) / (ps.length : ℝ))

/-- Brevity penalty as the specification words it. -/
def bpSpec (hyp_tokens ref_tokens : List String) : ℚ :=
  if ref_tokens = [] then 0
  else min 1 ((hyp_tokens.length : ℚ) / ref_tokens.length)

/-- The ROUGE-L contract as the specification words it: the same
formulas, but with the LCS length given by the semantic `lcsSpec`. -/
def rougeSpec (hypothesis reference : String) : RougeResult :=
  let hyp_tokens := _tokenize hypothesis
  let ref_tokens := _tokenize reference
  if hyp_tokens = [] ∨ ref_tokens = [] then ⟨0, 0, 0⟩
  else
    let lcs := lcsSpec hyp_tokens ref_tokens
    let precision : ℚ := (lcs : ℚ) / hyp_tokens.length
    let «recall» : ℚ := (lcs : ℚ) / ref_tokens.length
    let f1 : ℚ := if precision + «recall» = 0 then 0
      else 2 * precision * «recall» / (precision + «recall»)
    ⟨round4 precision, round4 «recall», round4 f1⟩

/-- A document returned by the vector store's similarity search
(`page_content` plus an opaque metadata blob). -/
structure RetrievedDoc where
  page_content : String
  metadata : String
deriving DecidableEq

/-- One chunk of `retrieve`'s result dict. -/
structure RetrievedChunk where
  content : String
  metadata : String
  score : ℚ
deriving DecidableEq

/-- Result dict of `rag/retriever.py retrieve`. -/
structure RetrievalResult where
  chunks : List RetrievedChunk
  is_confident : Bool
  avg_score : ℚ
deriving DecidableEq

/-- Python's `max` over a non-empty list (`max(scores)`); 0 on `[]`,
where the source never calls it. -/
def pyMax : List ℚ → ℚ
  | [] => 0
  | a :: t => t.foldl max a

/-- Source `rag/retriever.py retrieve` after the provider call: `results` is
`none` when the persisted store directory does not exist, otherwise the
`(Document, score)` pairs the provider returned. -/
def retrieve (results : Option (List (RetrievedDoc × ℚ))) (similarity_threshold : ℚ) :
    RetrievalResult :=
  match results with
  | none => ⟨[], false, 0⟩
  | some rs =>
    let chunks := rs.map (fun p => RetrievedChunk.mk p.1.page_content p.1.metadata (round4 p.2))
    let scores := rs.map (fun p => p.2)
    let avg_score : ℚ := if scores ≠ [] then scores.sum / scores.length else 0
    let is_confident := if scores ≠ [] then decide (similarity_threshold ≤ pyMax scores)
      else false
    ⟨chunks, is_confident, round4 avg_score⟩

/-- One element of `LearnerProfile.quiz_scores`. -/
structure QuizEntry where
  concept : String
  score : ℚ
  max_score : ℚ
  percentage : ℚ
  timestamp : String
deriving DecidableEq

/-- Source `tutor/personalize.py LearnerProfile` (dataclass with defaults). -/
structure LearnerProfile where
  name : String := "Learner"
  course : String := "General"
  skill_level : String := "Intermediate"
  goals : String := "Learn and understand the material"
  concepts_asked : List String := []
  misunderstanding_flags : List String := []
  quiz_scores : List QuizEntry := []
  weak_concepts : List String := []
deriving DecidableEq

/-- A freshly constructed profile (all dataclass defaults). -/
def defaultProfile : LearnerProfile := {}

/-- Source `LearnerProfile.record_concept`: append only if the concept is
truthy (non-empty) and not already present. -/
def record_concept (p : LearnerProfile) (concept : String) : LearnerProfile :=
  if concept ≠ "" ∧ concept ∉ p.concepts_asked then
    { p with concepts_asked := p.concepts_asked ++ [concept] }
  else p

/-- The Boolean filter `s["concept"] == concept and s["percentage"] < 50`
used by `record_quiz_score` when re-scanning the history. -/
def isLowFor (concept : String) (e : QuizEntry) : Bool :=
  e.concept == concept && decide (e.percentage < 50)

/-- Source `LearnerProfile.record_quiz_score`; the wall-clock timestamp is a
parameter. -/
def record_quiz_score (p : LearnerProfile) (concept : String) (score max_score : ℚ)
    (ts : String) : LearnerProfile :=
  let percentage : ℚ := if 0 < max_score then round1 (score / max_score * 100) else 0
  let qs := p.quiz_scores ++ [⟨concept, score, max_score, percentage, ts⟩]
  let concept_scores := qs.filter (isLowFor concept)
  let weak := if 2 ≤ concept_scores.length ∧ concept ∉ p.weak_concepts then
      p.weak_concepts ++ [concept]
    else p.weak_concepts
  { p with quiz_scores := qs, weak_concepts := weak }

/-- Source `LearnerProfile.get_concept_frequency`, read at one concept: the
dict the source builds maps each concept to its occurrence count in
`concepts_asked`. -/
def get_concept_frequency (p : LearnerProfile) (concept : String) : ℕ :=
  p.concepts_asked.count concept

/-- A sequence of `record_quiz_score` calls
(concept, score, max_score, timestamp). -/
def applyQuiz (p : LearnerProfile) (calls : List (String × ℚ × ℚ × String)) :
    LearnerProfile :=
  calls.foldl (fun q c => record_quiz_score q c.1 c.2.1 c.2.2.1 c.2.2.2) p

/-- A sequence of `record_concept` calls. -/
def applyConcepts (p : LearnerProfile) (calls : List String) : LearnerProfile :=
  calls.foldl record_concept p

/-- Log entry dict built by `eval/logger.py create_log_entry`. -/
structure LogEntry where
  timestamp : String
  query : String
  answer_preview : String
  avg_similarity : ℚ
  hit_rate : ℚ
  rouge_l_f1 : ℚ
  bleu : ℚ
  is_confident : Bool
  hallucination_risk : Bool
  quiz_score : Option ℚ
  quiz_max : Option ℚ
deriving DecidableEq

/-- Source `eval/logger.py create_log_entry`; the wall-clock timestamp is a
parameter.  `sum(1 for s in retrieval_scores if s >= 0.3)` is embedded
as `countP`. -/
def create_log_entry (query answer : String) (retrieval_scores : List ℚ)
    (rouge_l bleu : ℚ) (is_confident : Bool) (quiz_score quiz_max : Option ℚ)
    (ts : String) : LogEntry :=
  let avg_sim : ℚ := if retrieval_scores ≠ [] then
      retrieval_scores.sum / retrieval_scores.length else 0
  let hit_rate : ℚ := if retrieval_scores ≠ [] then
      (retrieval_scores.countP (fun s => decide (3 / 10 ≤ s)) : ℚ) / retrieval_scores.length
    else 0
  let answer_preview := if 200 < answer.length then
      (answer.toList.take 200).asString ++ "..." else answer
  ⟨ts, query, answer_preview, round4 avg_sim, round4 hit_rate, round4 rouge_l,
    round4 bleu, is_confident, !is_confident, quiz_score, quiz_max⟩

/-- The persisted file-hash mapping of `rag/ingest.py`, as an
association list with Python-dict update semantics (later bindings
shadow earlier ones). -/
def HashStore : Type := List (String × String)

/-- Summary dict returned by `ingest_pdfs`. -/
structure IngestSummary where
  ingested : ℕ
  skipped : ℕ
  total_chunks : ℕ
deriving DecidableEq

/-- The per-file loop of `rag/ingest.py ingest_pdfs`, abstracted over the
external collaborators: `hashFn` (SHA-256 of the raw bytes), `load`
(PyPDFLoader: bytes to pages, which can raise), and `split` (cleaning,
metadata enrichment and RecursiveCharacterTextSplitter, which cannot).
The source guards the load with `try`/`finally` only — a `finally:`
removes the temp file but no `except:` catches the error, so a parse
error propagates out of the whole loop. -/
def ingestLoop {β π κ : Type} (hashFn : β → String) (load : β → Except String (List π))
    (split : List π → List κ) :
    List (String × β) → HashStore → ℕ → ℕ → List κ →
    Except String (ℕ × ℕ × List κ × HashStore)
  | [], store, ingested_count, skipped_count, all_docs =>
    .ok (ingested_count, skipped_count, all_docs, store)
  | (file_name, file_bytes) :: rest, store, ingested_count, skipped_count, all_docs =>
    let file_hash := hashFn file_bytes
    if List.lookup file_name store = some file_hash then
      ingestLoop hashFn load split rest store ingested_count (skipped_count + 1) all_docs
    else
      match load file_bytes with
      | .error e => .error e
      | .ok pages =>
        ingestLoop hashFn load split rest ((file_name, file_hash) :: store)
          (ingested_count + 1) skipped_count (all_docs ++ split pages)

/-- Source `rag/ingest.py ingest_pdfs`: on success, the summary dict plus the
saved hash store; a propagated parse error aborts the call (the store is
then not saved).  The embedding-and-persist step (`Chroma.from_documents`)
adds `all_docs` as one batch; `total_chunks = len(all_docs)`. -/
def ingest_pdfs {β π κ : Type} (hashFn : β → String) (load : β → Except String (List π))
    (split : List π → List κ) (uploaded_files : List (String × β)) (store : HashStore) :
    Except String (IngestSummary × HashStore) :=
  match ingestLoop hashFn load split uploaded_files store 0 0 [] with
  | .error e => .error e
  | .ok (ingested_count, skipped_count, all_docs, st) =>
    .ok (⟨ingested_count, skipped_count, all_docs.length⟩, st)

/-! ## Longest common subsequence: semantic theory -/

theorem le_foldr_max {l : List ℕ} {a : ℕ} (h : a ∈ l) : a ≤ l.foldr max 0 := by
  induction l with
  | nil => cases h
  | cons b t ih =>
    rcases List.mem_cons.mp h with rfl | h2
    · exact le_max_left _ _
    · exact le_trans (ih h2) (le_max_right _ _)

theorem foldr_max_mem {l : List ℕ} (h : l ≠ []) : l.foldr max 0 ∈ l := by
  induction l with
  | nil => exact absurd rfl h
  | cons b t ih =>
    by_cases ht : t = []
    · subst ht; simp
    · rcases le_or_lt (t.foldr max 0) b with hb | hb
      · rw [List.foldr_cons, max_eq_left hb]
        exact List.mem_cons_self b t
      · rw [List.foldr_cons, max_eq_right (le_of_lt hb)]
        exact List.mem_cons_of_mem _ (ih ht)

theorem le_lcsSpec {α : Type} [DecidableEq α] {x y s : List α}
    (hx : List.Sublist s x) (hy : List.Sublist s y) : s.length ≤ lcsSpec x y := by
  apply le_foldr_max
  exact List.mem_map.mpr
    ⟨s, List.mem_filter.mpr ⟨List.mem_sublists.mpr hx, decide_eq_true hy⟩, rfl⟩

theorem lcsSpec_witness {α : Type} [DecidableEq α] (x y : List α) :
    ∃ s, List.Sublist s x ∧ List.Sublist s y ∧ s.length = lcsSpec x y := by
  have hmem0 : ([] : List α) ∈ (x.sublists).filter (fun s => decide (List.Sublist s y)) :=
    List.mem_filter.mpr ⟨List.mem_sublists.mpr (List.nil_sublist x),
      decide_eq_true (List.nil_sublist y)⟩
  have hne : (((x.sublists).filter (fun s => decide (List.Sublist s y))).map List.length) ≠ [] :=
    List.ne_nil_of_mem (List.mem_map_of_mem List.length hmem0)
  have hmem := foldr_max_mem hne
  obtain ⟨s, hs, hlen⟩ := List.mem_map.mp hmem
  have hs' := List.mem_filter.mp hs
  exact ⟨s, List.mem_sublists.mp hs'.1, of_decide_eq_true hs'.2, hlen⟩

theorem lcsSpec_nil_left {α : Type} [DecidableEq α] (y : List α) : lcsSpec [] y = 0 := by
  obtain ⟨s, hsx, _, hlen⟩ := lcsSpec_witness ([] : List α) y
  rw [← hlen, List.sublist_nil.mp hsx]
  rfl

theorem lcsSpec_nil_right {α : Type} [DecidableEq α] (x : List α) : lcsSpec x [] = 0 := by
  obtain ⟨s, _, hsy, hlen⟩ := lcsSpec_witness x ([] : List α)
  rw [← hlen, List.sublist_nil.mp hsy]
  rfl

theorem lcsSpec_mono_right {α : Type} [DecidableEq α] {x y y' : List α}
    (h : List.Sublist y y') : lcsSpec x y ≤ lcsSpec x y' := by
  obtain ⟨s, hsx, hsy, hlen⟩ := lcsSpec_witness x y
  exact hlen ▸ le_lcsSpec hsx (hsy.trans h)

theorem lcsSpec_mono_left {α : Type} [DecidableEq α] {x x' y : List α}
    (h : List.Sublist x x') : lcsSpec x y ≤ lcsSpec x' y := by
  obtain ⟨s, hsx, hsy, hlen⟩ := lcsSpec_witness x y
  exact hlen ▸ le_lcsSpec (hsx.trans h) hsy

theorem lcsSpec_cons_cons {α : Type} [DecidableEq α] (a : α) (x y : List α) :
    lcsSpec (a :: x) (a :: y) = lcsSpec x y + 1 := by
  apply le_antisymm
  · obtain ⟨s, hsx, hsy, hlen⟩ := lcsSpec_witness (a :: x) (a :: y)
    rw [← hlen]
    rcases List.sublist_cons_iff.mp hsx with h | ⟨r, rfl, hr⟩
    · rcases List.sublist_cons_iff.mp hsy with h2 | ⟨r, rfl, hr2⟩
      · exact le_trans (le_lcsSpec h h2) (Nat.le_succ _)
      · have hrx : List.Sublist r x := List.sublist_of_cons_sublist h
        simpa using Nat.succ_le_succ (le_lcsSpec hrx hr2)
    · have hr2 : List.Sublist r y := hsy.of_cons_cons
      simpa using Nat.succ_le_succ (le_lcsSpec hr hr2)
  · obtain ⟨s, hsx, hsy, hlen⟩ := lcsSpec_witness x y
    have h1 : List.Sublist (a :: s) (a :: x) := List.cons_sublist_cons.mpr hsx
    have h2 : List.Sublist (a :: s) (a :: y) := List.cons_sublist_cons.mpr hsy
    have := le_lcsSpec h1 h2
    simpa [hlen] using this

theorem lcsSpec_cons_ne {α : Type} [DecidableEq α] {a b : α} (hab : a ≠ b) (x y : List α) :
    lcsSpec (a :: x) (b :: y) = max (lcsSpec (a :: x) y) (lcsSpec x (b :: y)) := by
  apply le_antisymm
  · obtain ⟨s, hsx, hsy, hlen⟩ := lcsSpec_witness (a :: x) (b :: y)
    rw [← hlen]
    rcases List.sublist_cons_iff.mp hsx with h | ⟨r, rfl, hr⟩
    · exact le_trans (le_lcsSpec h hsy) (le_max_right _ _)
    · rcases List.sublist_cons_iff.mp hsy with h2 | ⟨r', heq, hr'⟩
      · exact le_trans (le_lcsSpec hsx h2) (le_max_left _ _)
      · injection heq with h1 h2
        exact absurd h1 hab
  · apply max_le
    · obtain ⟨s, hsx, hsy, hlen⟩ := lcsSpec_witness (a :: x) y
      exact hlen ▸ le_lcsSpec hsx (hsy.cons b)
    · obtain ⟨s, hsx, hsy, hlen⟩ := lcsSpec_witness x (b :: y)
      exact hlen ▸ le_lcsSpec (hsx.cons a) hsy

theorem lcsSpec_reverse_le {α : Type} [DecidableEq α] (x y : List α) :
    lcsSpec x.reverse y.reverse ≤ lcsSpec x y := by
  obtain ⟨s, hsx, hsy, hlen⟩ := lcsSpec_witness x.reverse y.reverse
  rw [← hlen, ← List.length_reverse s]
  exact le_lcsSpec (List.sublist_reverse_iff.mp hsx) (List.sublist_reverse_iff.mp hsy)

theorem lcsSpec_reverse {α : Type} [DecidableEq α] (x y : List α) :
    lcsSpec x.reverse y.reverse = lcsSpec x y := by
  apply le_antisymm (lcsSpec_reverse_le x y)
  have := lcsSpec_reverse_le x.reverse y.reverse
  simpa using this

theorem lcsSpec_append_same {α : Type} [DecidableEq α] (a : α) (x y : List α) :
    lcsSpec (x ++ [a]) (y ++ [a]) = lcsSpec x y + 1 := by
  rw [← lcsSpec_reverse (x ++ [a]) (y ++ [a])]
  simp only [List.reverse_append, List.reverse_cons, List.reverse_nil, List.nil_append,
    List.singleton_append]
  rw [lcsSpec_cons_cons, lcsSpec_reverse]

theorem lcsSpec_append_ne {α : Type} [DecidableEq α] {a b : α} (hab : a ≠ b) (x y : List α) :
    lcsSpec (x ++ [a]) (y ++ [b]) =
      max (lcsSpec (x ++ [a]) y) (lcsSpec x (y ++ [b])) := by
  have h1 := lcsSpec_cons_ne hab x.reverse y.reverse
  have e1 : lcsSpec (a :: x.reverse) (b :: y.reverse) = lcsSpec (x ++ [a]) (y ++ [b]) := by
    rw [← lcsSpec_reverse (x ++ [a]) (y ++ [b])]
    simp
  have e2 : lcsSpec (a :: x.reverse) y.reverse = lcsSpec (x ++ [a]) y := by
    rw [← lcsSpec_reverse (x ++ [a]) y]
    simp
  have e3 : lcsSpec x.reverse (b :: y.reverse) = lcsSpec x (y ++ [b]) := by
    rw [← lcsSpec_reverse x (y ++ [b])]
    simp
  rw [← e1, ← e2, ← e3, h1]

theorem lcsSpec_self {α : Type} [DecidableEq α] (x : List α) : lcsSpec x x = x.length := by
  apply le_antisymm
  · obtain ⟨s, hsx, _, hlen⟩ := lcsSpec_witness x x
    exact hlen ▸ hsx.length_le
  · exact le_lcsSpec (List.Sublist.refl x) (List.Sublist.refl x)

/-! ## Correctness of the rolling-row dynamic program -/

theorem map_range_succ_headD {β : Type} (f : ℕ → β) (n : ℕ) (d : β) :
    (((List.range (n + 1)).map f)).headD d = f 0 := by
  rw [List.range_succ_eq_map]
  rfl

theorem map_range_succ_drop {β : Type} (f : ℕ → β) (n : ℕ) :
    (((List.range (n + 1)).map f)).drop 1 = (List.range n).map (fun j => f (j + 1)) := by
  rw [List.range_succ_eq_map]
  simp [List.map_map, Function.comp]

theorem lcsInner_spec {α : Type} [DecidableEq α] (a : α) (ys : List α) :
    ∀ (z u : List α),
    lcsInner a ys (lcsSpec (u ++ [a]) z)
      ((List.range (ys.length + 1)).map (fun j => lcsSpec u (z ++ ys.take j))) =
    (List.range ys.length).map (fun j => lcsSpec (u ++ [a]) (z ++ ys.take (j + 1))) := by
  induction ys with
  | nil => intro z u; simp [lcsInner]
  | cons b ys ih =>
    intro z u
    have hPd : (((List.range ((b :: ys).length + 1)).map
          (fun j => lcsSpec u (z ++ (b :: ys).take j))).drop 1) =
        (List.range (ys.length + 1)).map (fun j => lcsSpec u ((z ++ [b]) ++ ys.take j)) := by
      simp only [List.length_cons]
      rw [map_range_succ_drop]
      apply List.map_congr_left
      intro j hj
      simp [List.take_succ_cons]
    have hP0 : (((List.range ((b :: ys).length + 1)).map
          (fun j => lcsSpec u (z ++ (b :: ys).take j))).headD 0) = lcsSpec u z := by
      simp only [List.length_cons]
      rw [map_range_succ_headD]
      simp
    have hP1 : ((((List.range ((b :: ys).length + 1)).map
          (fun j => lcsSpec u (z ++ (b :: ys).take j))).drop 1).headD 0) =
        lcsSpec u (z ++ [b]) := by
      rw [hPd, map_range_succ_headD]
      simp
    have hc : (if a = b then lcsSpec u z + 1
          else max (lcsSpec (u ++ [a]) z) (lcsSpec u (z ++ [b]))) =
        lcsSpec (u ++ [a]) (z ++ [b]) := by
      by_cases hab : a = b
      · subst hab
        rw [if_pos rfl, lcsSpec_append_same]
      · rw [if_neg hab, lcsSpec_append_ne hab]
    have hR : (List.range ((b :: ys).length)).map
          (fun j => lcsSpec (u ++ [a]) (z ++ (b :: ys).take (j + 1))) =
        lcsSpec (u ++ [a]) (z ++ [b]) ::
          (List.range ys.length).map
            (fun j => lcsSpec (u ++ [a]) ((z ++ [b]) ++ ys.take (j + 1))) := by
      simp only [List.length_cons]
      rw [List.range_succ_eq_map]
      simp only [List.map_cons, List.map_map]
      refine List.cons_eq_cons.mpr ⟨by simp, ?_⟩
      apply List.map_congr_left
      intro j hj
      simp [Function.comp, List.take_succ_cons]
    rw [lcsInner, hP0, hP1, hPd, hc, hR, ih (z ++ [b]) u]

theorem lcsRow_spec {α : Type} [DecidableEq α] (y u : List α) :
    u.foldl (lcsRowStep y) (List.replicate (y.length + 1) 0) =
    (List.range (y.length + 1)).map (fun j => lcsSpec u (y.take j)) := by
  induction u using List.reverseRecOn with
  | nil =>
    rw [List.foldl_nil]
    symm
    apply List.eq_replicate_iff.mpr
    refine ⟨by simp, ?_⟩
    intro b hb
    obtain ⟨j, _, rfl⟩ := List.mem_map.mp hb
    exact lcsSpec_nil_left _
  | append_singleton u a ih =>
    rw [List.foldl_append, List.foldl_cons, List.foldl_nil, ih, lcsRowStep]
    have hspec := lcsInner_spec a y [] u
    simp only [List.nil_append] at hspec
    rw [lcsSpec_nil_right] at hspec
    rw [hspec, List.range_succ_eq_map]
    simp only [List.map_cons, List.map_map]
    refine List.cons_eq_cons.mpr ⟨by simp [lcsSpec_nil_right], ?_⟩
    apply List.map_congr_left
    intro j hj
    simp

theorem lcs_length_eq_lcsSpec {α : Type} [DecidableEq α] (x y : List α) :
    _lcs_length x y = lcsSpec x y := by
  rw [_lcs_length]
  by_cases hxy : x.length = 0 ∨ y.length = 0
  · rw [if_pos hxy]
    rcases hxy with hx | hy
    · have : x = [] := List.length_eq_zero.mp hx
      subst this
      rw [lcsSpec_nil_left]
    · have : y = [] := List.length_eq_zero.mp hy
      subst this
      rw [lcsSpec_nil_right]
  · rw [if_neg hxy, lcsRow_spec]
    rw [List.getD_eq_getElem?_getD, List.getElem?_map, List.getElem?_range (Nat.lt_succ_self _)]
    simp [List.take_length]

/-! ## Metrics: ROUGE-L against its contract -/

theorem compute_rouge_l_eq_rougeSpec (hypothesis reference : String) :
    compute_rouge_l hypothesis reference = rougeSpec hypothesis reference := by
  rw [compute_rouge_l, rougeSpec]
  by_cases hc : _tokenize hypothesis = [] ∨ _tokenize reference = []
  · rw [if_pos hc, if_pos hc]
  · push_neg at hc
    rw [if_neg (by simp [hc.1, hc.2]), if_neg (by simp [hc.1, hc.2])]
    rw [lcs_length_eq_lcsSpec]
    simp only [ne_eq, hc.1, not_false_eq_true, if_true, hc.2]

theorem roundHalfEven_intCast {K : Type} [LinearOrderedField K] [FloorRing K] (n : ℤ) :
    roundHalfEven ((n : K)) = n := by
  rw [roundHalfEven, Int.floor_intCast]
  rw [if_pos]
  rw [sub_self]
  norm_num

theorem round4_one {K : Type} [LinearOrderedField K] [FloorRing K] : round4 (1 : K) = 1 := by
  rw [round4, show ((1 : K) * 10000) = ((10000 : ℤ) : K) by norm_num, roundHalfEven_intCast]
  norm_num

theorem round4_zero {K : Type} [LinearOrderedField K] [FloorRing K] : round4 (0 : K) = 0 := by
  rw [round4, show ((0 : K) * 10000) = ((0 : ℤ) : K) by norm_num, roundHalfEven_intCast]
  norm_num

theorem rouge_self_f1 (s : String) (h : _tokenize s ≠ []) :
    (compute_rouge_l s s).f1 = 1 := by
  rw [compute_rouge_l]
  rw [if_neg (by simp [h])]
  simp only [ne_eq, h, not_false_eq_true, if_true]
  rw [lcs_length_eq_lcsSpec, lcsSpec_self]
  have hlen : ((_tokenize s).length : ℚ) ≠ 0 := by
    exact_mod_cast fun h0 => h (List.length_eq_zero.mp (by exact_mod_cast h0))
  rw [div_self hlen]
  norm_num
  exact round4_one

/-! ## Metrics: BLEU geometric mean -/

theorem sum_map_div (l : List ℚ) (f : ℚ → ℝ) (c : ℝ) :
    (l.map (fun p => f p / c)).sum = (l.map f).sum / c := by
  induction l with
  | nil => simp
  | cons a t ih => simp [ih, add_div]

theorem log_list_prod (l : List ℚ) (hpos : ∀ p ∈ l, 0 < p) :
    Real.log ((l.map (fun p : ℚ => (p : ℝ))).prod) = (l.map (fun p : ℚ => Real.log (p : ℝ))).sum := by
  induction l with
  | nil => simp
  | cons a t ih =>
    simp only [List.map_cons, List.prod_cons, List.sum_cons]
    have ha : ((a : ℝ)) ≠ 0 := by
      exact_mod_cast ne_of_gt (hpos a (List.mem_cons_self a t))
    have ht : ∀ p ∈ t, (0 : ℚ) < p := fun p hp => hpos p (List.mem_cons_of_mem a hp)
    have hprod : ((t.map (fun p : ℚ => (p : ℝ))).prod) ≠ 0 := by
      apply ne_of_gt
      apply List.prod_pos
      intro x hx
      obtain ⟨p, hp, rfl⟩ := List.mem_map.mp hx
      exact_mod_cast ht p hp
    rw [Real.log_mul ha hprod, ih ht]

theorem exp_avg_log_eq_geoMean (l : List ℚ) (hpos : ∀ p ∈ l, 0 < p) :
    Real.exp ((l.map (fun p : ℚ => Real.log (p : ℝ) / (l.length : ℝ))).sum) =
    ((l.map (fun p : ℚ => (p : ℝ))).prod) ^ ((1 : ℝ) / (l.length : ℝ)) := by
  have hP : (0 : ℝ) < (l.map (fun p : ℚ => (p : ℝ))).prod := by
    apply List.prod_pos
    intro x hx
    obtain ⟨p, hp, rfl⟩ := List.mem_map.mp hx
    exact_mod_cast hpos p hp
  rw [Real.rpow_def_of_pos hP, sum_map_div l (fun p : ℚ => Real.log (p : ℝ)) (l.length : ℝ),
    log_list_prod l hpos, mul_one_div]

theorem bleuPrecisions_nonneg (hyp_tokens ref_tokens : List String) (max_n : ℕ) :
    ∀ p ∈ bleuPrecisions hyp_tokens ref_tokens max_n, (0 : ℚ) ≤ p := by
  intro p hp
  rw [bleuPrecisions] at hp
  obtain ⟨k, _, rfl⟩ := List.mem_map.mp hp
  show (0 : ℚ) ≤ if (ngramList hyp_tokens (k + 1)).length = 0 then 0
    else (clippedCount hyp_tokens ref_tokens (k + 1) : ℚ) / ((ngramList hyp_tokens (k + 1)).length : ℚ)
  split
  · exact le_refl 0
  · positivity

theorem geo_eq_geoMeanSpec (ps : List ℚ) (hnn : ∀ p ∈ ps, (0 : ℚ) ≤ p) :
    (if (0 : ℚ) ∈ ps then (0 : ℝ)
      else Real.exp ((ps.map (fun p : ℚ => Real.log (p : ℝ) / (ps.length : ℝ))).sum)) =
    geoMeanSpec ps := by
  by_cases h0 : (0 : ℚ) ∈ ps
  · simp [geoMeanSpec, h0]
  · rw [if_neg h0, geoMeanSpec, if_neg h0]
    apply exp_avg_log_eq_geoMean
    intro p hp
    exact lt_of_le_of_ne (hnn p hp) (fun he => h0 (he ▸ hp))

theorem compute_bleu_eq_spec (hypothesis reference : String) (max_n : ℕ)
    (hh : _tokenize hypothesis ≠ []) (hr : _tokenize reference ≠ []) :
    compute_bleu hypothesis reference max_n =
    ⟨round4 ((bpSpec (_tokenize hypothesis) (_tokenize reference) : ℝ) *
        geoMeanSpec (bleuPrecisions (_tokenize hypothesis) (_tokenize reference) max_n)),
      (bleuPrecisions (_tokenize hypothesis) (_tokenize reference) max_n).map round4⟩ := by
  rw [compute_bleu, if_neg (by simp [hh, hr])]
  dsimp only
  rw [geo_eq_geoMeanSpec _ (bleuPrecisions_nonneg _ _ _), bpSpec, mul_comm]

theorem ngramList_length (tokens : List String) (n : ℕ) (h : n ≤ tokens.length) :
    (ngramList tokens n).length = tokens.length - n + 1 := by
  rw [ngramList, if_neg (not_lt.mpr h)]
  simp

theorem list_string_beq_eq (x y : List String) :
    (x == y) = (@BEq.beq _ instBEqOfDecidableEq x y) := by
  by_cases h : x = y
  · subst h
    rw [beq_self_eq_true]
    exact (decide_eq_true rfl).symm
  · have h1 : (x == y) = false := beq_eq_false_iff_ne.mpr h
    have h2 : (@BEq.beq _ instBEqOfDecidableEq x y) = false := decide_eq_false h
    rw [h1, h2]

theorem count_inst_eq (g : List String) (l : List (List String)) :
    l.count g = @List.count _ instBEqOfDecidableEq g l := by
  induction l with
  | nil => rfl
  | cons b t ih =>
    rw [List.count_cons, @List.count_cons _ instBEqOfDecidableEq, ih, list_string_beq_eq]

theorem clippedCount_self (tokens : List String) (n : ℕ) :
    clippedCount tokens tokens n = (ngramList tokens n).length := by
  rw [clippedCount]
  simp only [min_self]
  have hmap : (ngramList tokens n).dedup.map (fun g => (ngramList tokens n).count g) =
      (ngramList tokens n).dedup.map (fun g => @List.count _ instBEqOfDecidableEq g (ngramList tokens n)) := by
    apply List.map_congr_left
    intro g _
    exact count_inst_eq g _
  rw [hmap]
  exact List.sum_map_count_dedup_eq_length (ngramList tokens n)

theorem bleuPrecisions_self (tokens : List String) (h2 : 2 ≤ tokens.length) :
    bleuPrecisions tokens tokens 2 = [1, 1] := by
  have h1 : (1 : ℕ) ≤ tokens.length := le_trans one_le_two h2
  have h1ne : (ngramList tokens 1).length ≠ 0 := by
    rw [ngramList_length _ _ h1]
    omega
  have h2ne : (ngramList tokens 2).length ≠ 0 := by
    rw [ngramList_length _ _ h2]
    omega
  rw [bleuPrecisions, show List.range 2 = [0, 1] from rfl]
  simp only [List.map_cons, List.map_nil]
  rw [if_neg h1ne, if_neg h2ne, clippedCount_self, clippedCount_self]
  rw [div_self (by exact_mod_cast h1ne), div_self (by exact_mod_cast h2ne)]

theorem bleu_self (s : String) (h2 : 2 ≤ (_tokenize s).length) :
    (compute_bleu s s 2).bleu = 1 := by
  have hne : _tokenize s ≠ [] := by
    intro h0
    rw [h0] at h2
    simp at h2
  rw [compute_bleu_eq_spec s s 2 hne hne]
  dsimp only
  rw [bleuPrecisions_self _ h2]
  rw [geoMeanSpec, if_neg (by norm_num)]
  rw [bpSpec, if_neg hne]
  have hlen : ((_tokenize s).length : ℚ) ≠ 0 := by
    exact_mod_cast fun h0 => hne (List.length_eq_zero.mp (by exact_mod_cast h0))
  rw [div_self hlen, min_self]
  norm_num
  exact round4_one

/-! ## Claim theorems: text metrics -/

/-- C4: for every pair of strings, `compute_rouge_l` tokenizes by
lowercasing and extracting word runs and returns precision = LCS/|hyp|,
recall = LCS/|ref| and f1 = 2PR/(P+R) (0 when P+R = 0), each rounded to
4 decimal places, where the rolling-row DP computes exactly the
longest-common-subsequence length; all-zero when either token sequence
is empty.  Stated as: the implementation equals the contract written
with the semantic LCS (`rougeSpec`). -/
theorem C4_rouge_l_correct (hypothesis reference : String) :
    compute_rouge_l hypothesis reference = rougeSpec hypothesis reference :=
  compute_rouge_l_eq_rougeSpec hypothesis reference

/-- C2 counterexample: for the non-empty string "a" (a single token),
self-BLEU is not 1 — the bigram precision is 0, so the geometric mean
and hence the whole score is 0.  The claim "for every equal pair of
non-empty strings, f1 = 1 and bleu = 1" is false at s = "a". -/
theorem C2_counterexample :
    ¬((compute_rouge_l "a" "a").f1 = 1 ∧ (compute_bleu "a" "a" 2).bleu = 1) := by
  have ht : _tokenize "a" = ["a"] := by decide
  have hbleu : (compute_bleu "a" "a" 2).bleu = 0 := by
    rw [compute_bleu, ht, if_neg (by simp)]
    dsimp only
    have e1 : (ngramList ["a"] (0 + 1)).length = 1 := by decide
    have e2 : (ngramList ["a"] (1 + 1)).length = 0 := by decide
    have e3 : clippedCount ["a"] ["a"] (0 + 1) = 1 := by decide
    have hp : bleuPrecisions ["a"] ["a"] 2 = [1, 0] := by
      rw [bleuPrecisions, show List.range 2 = [0, 1] from rfl]
      simp only [List.map_cons, List.map_nil]
      rw [e1, e2, e3]
      norm_num
    rw [hp, if_pos (by norm_num), zero_mul, round4_zero]
  rintro ⟨-, hb⟩
  rw [hbleu] at hb
  norm_num at hb

/-- C2 (amended): for every string s whose token sequence has at least
two tokens (so every n-gram order up to the default max_n = 2 is
non-vacuous), `compute_rouge_l(s, s).f1 = 1` and
`compute_bleu(s, s).bleu = 1` (exact self-match, brevity penalty 1).
Single-token or token-free strings are excluded: there the bigram
precision (respectively every precision) is 0 and bleu is 0. -/
theorem C2_self_match_amended (s : String) (h2 : 2 ≤ (_tokenize s).length) :
    (compute_rouge_l s s).f1 = 1 ∧ (compute_bleu s s 2).bleu = 1 := by
  constructor
  · apply rouge_self_f1
    intro h0
    rw [h0] at h2
    simp at h2
  · exact bleu_self s h2

/-- Witness for C2 (amended) at the concrete two-token string "a b". -/
theorem C2_self_match_amended_witness :
    2 ≤ (_tokenize "a b").length ∧
    ((compute_rouge_l "a b" "a b").f1 = 1 ∧ (compute_bleu "a b" "a b" 2).bleu = 1) :=
  ⟨by decide, C2_self_match_amended "a b" (by decide)⟩

/-- C5: for strings with non-empty token sequences,
`compute_bleu(h, r, max_n)` returns `bleu = round(bp * G, 4)` where `G`
is the geometric mean (the max_n-th root of the product) of the modified
n-gram precisions — 0 if any precision is exactly 0, no smoothing — and
`bp = min(1, len(hyp)/len(ref))`; the returned precisions are those
clipped-count ratios rounded to 4 decimal places. -/
theorem C5_bleu_formula (hypothesis reference : String) (max_n : ℕ)
    (hh : _tokenize hypothesis ≠ []) (hr : _tokenize reference ≠ []) :
    (compute_bleu hypothesis reference max_n).bleu =
      round4 ((bpSpec (_tokenize hypothesis) (_tokenize reference) : ℝ) *
        geoMeanSpec (bleuPrecisions (_tokenize hypothesis) (_tokenize reference) max_n)) ∧
    (compute_bleu hypothesis reference max_n).precisions =
      (bleuPrecisions (_tokenize hypothesis) (_tokenize reference) max_n).map round4 := by
  rw [compute_bleu_eq_spec hypothesis reference max_n hh hr]
  exact ⟨rfl, rfl⟩

/-- Witness for C5 at concrete strings "the cat sat" / "the cat". -/
theorem C5_bleu_formula_witness :
    _tokenize "the cat sat" ≠ [] ∧ _tokenize "the cat" ≠ [] ∧
    ((compute_bleu "the cat sat" "the cat" 2).bleu =
      round4 ((bpSpec (_tokenize "the cat sat") (_tokenize "the cat") : ℝ) *
        geoMeanSpec (bleuPrecisions (_tokenize "the cat sat") (_tokenize "the cat") 2)) ∧
    (compute_bleu "the cat sat" "the cat" 2).precisions =
      (bleuPrecisions (_tokenize "the cat sat") (_tokenize "the cat") 2).map round4) :=
  ⟨by decide, by decide, C5_bleu_formula "the cat sat" "the cat" 2 (by decide) (by decide)⟩

/-! ## Retriever: confidence and rounding -/

theorem le_foldl_max (t : List ℚ) : ∀ a : ℚ, a ≤ t.foldl max a ∧ ∀ x ∈ t, x ≤ t.foldl max a := by
  induction t with
  | nil => intro a; exact ⟨le_refl a, by simp⟩
  | cons b t ih =>
    intro a
    constructor
    · exact le_trans (le_max_left a b) (ih (max a b)).1
    · intro x hx
      rcases List.mem_cons.mp hx with rfl | hx'
      · exact le_trans (le_max_right a x) (ih (max a x)).1
      · exact (ih (max a b)).2 x hx'

theorem foldl_max_mem (t : List ℚ) : ∀ a : ℚ, t.foldl max a ∈ a :: t := by
  induction t with
  | nil => intro a; simp
  | cons b t ih =>
    intro a
    rw [List.foldl_cons]
    rcases List.mem_cons.mp (ih (max a b)) with he | hm
    · rw [he]
      rcases max_choice a b with h1 | h1
      · rw [h1]; exact List.mem_cons_self _ _
      · rw [h1]; exact List.mem_cons_of_mem _ (List.mem_cons_self _ _)
    · exact List.mem_cons_of_mem _ (List.mem_cons_of_mem _ hm)

theorem pyMax_spec (l : List ℚ) (h : l ≠ []) : pyMax l ∈ l ∧ ∀ x ∈ l, x ≤ pyMax l := by
  match l with
  | a :: t =>
    refine ⟨foldl_max_mem t a, ?_⟩
    intro x hx
    rcases List.mem_cons.mp hx with rfl | hx'
    · exact (le_foldl_max t x).1
    · exact (le_foldl_max t a).2 x hx'

theorem maximum_eq_pyMax (l : List ℚ) (h : l ≠ []) : l.maximum = some (pyMax l) := by
  apply List.maximum_eq_coe_iff.mpr
  exact pyMax_spec l h

theorem floor_eval {K : Type} [LinearOrderedField K] [FloorRing K] (x : K) (n : ℤ)
    (h1 : (n : K) ≤ x) (h2 : x < n + 1) : ⌊x⌋ = n :=
  Int.floor_eq_iff.mpr ⟨h1, by exact_mod_cast h2⟩

theorem roundHalfEven_eq_of_lt {K : Type} [LinearOrderedField K] [FloorRing K]
    (x : K) (n : ℤ) (hfl : ⌊x⌋ = n) (hlt : x - n < 1 / 2) : roundHalfEven x = n := by
  rw [roundHalfEven, hfl, if_pos hlt]

theorem roundHalfEven_eq_of_gt {K : Type} [LinearOrderedField K] [FloorRing K]
    (x : K) (n : ℤ) (hfl : ⌊x⌋ = n) (hgt : 1 / 2 < x - n) : roundHalfEven x = n + 1 := by
  rw [roundHalfEven, hfl, if_neg (by linarith), if_pos hgt]

/-- C1: for every retrieval result of `retrieve` with a non-empty score
list, `is_confident` holds exactly when the maximum provider score
reaches `similarity_threshold`, and `avg_score` is the arithmetic mean
of the provider scores rounded to 4 decimal places; with an empty score
list (including the missing-store case) `is_confident` is false and
`avg_score` is 0. -/
theorem C1_retrieve_confidence (results : List (RetrievedDoc × ℚ)) (similarity_threshold : ℚ) :
    (∀ m : ℚ, (results.map (fun p => p.2)).maximum = some m →
      ((retrieve (some results) similarity_threshold).is_confident = true ↔
        similarity_threshold ≤ m)) ∧
    (results ≠ [] → (retrieve (some results) similarity_threshold).avg_score =
      round4 ((results.map (fun p => p.2)).sum / ((results.map (fun p => p.2)).length : ℚ))) ∧
    (results = [] → (retrieve (some results) similarity_threshold).is_confident = false ∧
      (retrieve (some results) similarity_threshold).avg_score = 0) ∧
    retrieve none similarity_threshold = ⟨[], false, 0⟩ := by
  refine ⟨?_, ?_, ?_, rfl⟩
  · intro m hm
    have hne : results.map (fun p => p.2) ≠ [] := by
      intro h0
      rw [h0] at hm
      simp [List.maximum_nil] at hm
    have hmax := maximum_eq_pyMax _ hne
    rw [hmax] at hm
    have hpm : pyMax (results.map (fun p => p.2)) = m := by
      injection hm
    rw [retrieve]
    dsimp only
    rw [if_pos hne, hpm]
    exact decide_eq_true_iff
  · intro hne
    have hne' : results.map (fun p => p.2) ≠ [] := by
      intro h0
      exact hne (List.map_eq_nil_iff.mp h0)
    rw [retrieve]
    dsimp only
    rw [if_pos hne']
  · intro h0
    subst h0
    constructor
    · rfl
    · show round4 (if ([] : List ℚ) ≠ [] then 0 / 0 else 0) = 0
      rw [if_neg (by simp)]
      exact round4_zero

/-- Witness for C1 at a single returned chunk with score 1/2 and
threshold 3/10. -/
theorem C1_retrieve_confidence_witness :
    ((List.map (fun p => p.2) [(RetrievedDoc.mk "c" "m", (1 : ℚ)/2)]).maximum =
      some ((1 : ℚ)/2)) ∧
    ((retrieve (some [(RetrievedDoc.mk "c" "m", (1 : ℚ)/2)]) (3/10)).is_confident = true ↔
      (3/10 : ℚ) ≤ 1/2) ∧
    (retrieve (some [(RetrievedDoc.mk "c" "m", (1 : ℚ)/2)]) (3/10)).avg_score =
      round4 ((List.map (fun p => p.2) [(RetrievedDoc.mk "c" "m", (1 : ℚ)/2)]).sum /
        ((List.map (fun p => p.2) [(RetrievedDoc.mk "c" "m", (1 : ℚ)/2)]).length : ℚ)) := by
  have hmax : (List.map (fun p => p.2) [(RetrievedDoc.mk "c" "m", (1 : ℚ)/2)]).maximum =
      some ((1 : ℚ)/2) := by
    rw [maximum_eq_pyMax _ (by simp)]
    rfl
  exact ⟨hmax, (C1_retrieve_confidence _ _).1 (1/2) hmax,
    (C1_retrieve_confidence _ _).2.1 (by simp)⟩

/-- C10: each returned chunk's `score` field is the provider score
rounded to 4 decimal places, while `avg_score` and `is_confident` are
computed from the unrounded provider scores; consequently, for the
concrete score list [0.29996, 0.00006] with threshold 0.3 the verdict is
not confident even though the rounded per-chunk scores reach the
threshold, and the mean recomputed from the per-chunk scores differs
from `avg_score`. -/
theorem C10_chunk_scores_rounded :
    (∀ (results : List (RetrievedDoc × ℚ)) (similarity_threshold : ℚ),
      (retrieve (some results) similarity_threshold).chunks.map (fun c => c.score) =
        results.map (fun p => round4 p.2)) ∧
    ((retrieve (some [(RetrievedDoc.mk "c1" "m", (29996 : ℚ)/100000),
        (RetrievedDoc.mk "c2" "m", (6 : ℚ)/100000)]) (3/10)).is_confident = false ∧
      (3/10 : ℚ) ≤ pyMax (((retrieve (some [(RetrievedDoc.mk "c1" "m", (29996 : ℚ)/100000),
        (RetrievedDoc.mk "c2" "m", (6 : ℚ)/100000)]) (3/10)).chunks.map (fun c => c.score))) ∧
      (retrieve (some [(RetrievedDoc.mk "c1" "m", (29996 : ℚ)/100000),
        (RetrievedDoc.mk "c2" "m", (6 : ℚ)/100000)]) (3/10)).avg_score ≠
        (((retrieve (some [(RetrievedDoc.mk "c1" "m", (29996 : ℚ)/100000),
          (RetrievedDoc.mk "c2" "m", (6 : ℚ)/100000)]) (3/10)).chunks.map
            (fun c => c.score)).sum / 2)) := by
  have h1 : round4 ((29996 : ℚ)/100000) = 3/10 := by
    rw [round4, show ((29996 : ℚ)/100000) * 10000 = 29996/10 by norm_num,
      roundHalfEven_eq_of_gt ((29996 : ℚ)/10) 2999
        (floor_eval _ _ (by norm_num) (by norm_num)) (by norm_num)]
    norm_num
  have h2 : round4 ((6 : ℚ)/100000) = 1/10000 := by
    rw [round4, show ((6 : ℚ)/100000) * 10000 = 6/10 by norm_num,
      roundHalfEven_eq_of_gt ((6 : ℚ)/10) 0
        (floor_eval _ _ (by norm_num) (by norm_num)) (by norm_num)]
    norm_num
  have h3 : round4 ((15001 : ℚ)/100000) = 15/100 := by
    rw [round4, show ((15001 : ℚ)/100000) * 10000 = 15001/10 by norm_num,
      roundHalfEven_eq_of_lt ((15001 : ℚ)/10) 1500
        (floor_eval _ _ (by norm_num) (by norm_num)) (by norm_num)]
    norm_num
  have hch : (retrieve (some [(RetrievedDoc.mk "c1" "m", (29996 : ℚ)/100000),
      (RetrievedDoc.mk "c2" "m", (6 : ℚ)/100000)]) (3/10)).chunks.map (fun c => c.score) =
      [3/10, 1/10000] := by
    rw [retrieve]
    dsimp only
    simp only [List.map_cons, List.map_nil]
    rw [h1, h2]
  refine ⟨?_, ?_, ?_, ?_⟩
  · intro results similarity_threshold
    rw [retrieve]
    dsimp only
    rw [List.map_map]
    rfl
  · rw [retrieve]
    dsimp only
    rw [if_pos (by simp)]
    apply decide_eq_false
    show ¬((3 : ℚ)/10 ≤ max ((29996 : ℚ)/100000) ((6 : ℚ)/100000))
    rw [max_eq_left (by norm_num)]
    norm_num
  · rw [hch]
    show (3 : ℚ)/10 ≤ max ((3 : ℚ)/10) ((1 : ℚ)/10000)
    exact le_max_left _ _
  · rw [hch]
    rw [retrieve]
    dsimp only
    rw [if_pos (by simp)]
    simp only [List.map_cons, List.map_nil, List.sum_cons, List.sum_nil, List.length_cons,
      List.length_nil]
    rw [show ((29996 : ℚ)/100000 + ((6 : ℚ)/100000 + 0)) / (((0 + 1 + 1 : ℕ) : ℚ)) =
      (15001 : ℚ)/100000 by norm_num, h3]
    norm_num

/-! ## Evaluation logger -/

/-- C8: `hit_rate` is the fraction of retrieval scores ≥ 0.3 (0 for an
empty list), rounded to 4 decimal places; `answer_preview` is the answer
itself when it has at most 200 characters and its first 200 characters
with "..." appended otherwise; `hallucination_risk` is the negation of
`is_confident`. -/
theorem C8_log_entry (query answer : String) (retrieval_scores : List ℚ)
    (rouge_l bleu : ℚ) (is_confident : Bool) (quiz_score quiz_max : Option ℚ) (ts : String) :
    (retrieval_scores ≠ [] →
      (create_log_entry query answer retrieval_scores rouge_l bleu is_confident
        quiz_score quiz_max ts).hit_rate =
      round4 (((retrieval_scores.filter (fun s => decide ((3 : ℚ)/10 ≤ s))).length : ℚ) /
        (retrieval_scores.length : ℚ))) ∧
    (retrieval_scores = [] →
      (create_log_entry query answer retrieval_scores rouge_l bleu is_confident
        quiz_score quiz_max ts).hit_rate = 0) ∧
    (answer.length ≤ 200 →
      (create_log_entry query answer retrieval_scores rouge_l bleu is_confident
        quiz_score quiz_max ts).answer_preview = answer) ∧
    (200 < answer.length →
      (create_log_entry query answer retrieval_scores rouge_l bleu is_confident
        quiz_score quiz_max ts).answer_preview = (answer.toList.take 200).asString ++ "...") ∧
    (create_log_entry query answer retrieval_scores rouge_l bleu is_confident
      quiz_score quiz_max ts).hallucination_risk = !is_confident := by
  refine ⟨?_, ?_, ?_, ?_, rfl⟩
  · intro hne
    rw [create_log_entry]
    dsimp only
    rw [if_pos hne, List.countP_eq_length_filter]
  · intro h0
    rw [create_log_entry]
    dsimp only
    rw [if_neg (by simp [h0])]
    exact round4_zero
  · intro hle
    rw [create_log_entry]
    dsimp only
    rw [if_neg (not_lt.mpr hle)]
  · intro hgt
    rw [create_log_entry]
    dsimp only
    rw [if_pos hgt]

/-- Witness for C8 at scores [2/5, 1/10] and the short answer "hi". -/
theorem C8_log_entry_witness :
    ([(2 : ℚ)/5, 1/10] ≠ ([] : List ℚ)) ∧ ("hi".length ≤ 200) ∧
    ((create_log_entry "q" "hi" [(2 : ℚ)/5, 1/10] 0 0 true none none "t").hit_rate =
      round4 (((([(2 : ℚ)/5, 1/10]).filter (fun s => decide ((3 : ℚ)/10 ≤ s))).length : ℚ) /
        ((([(2 : ℚ)/5, 1/10]) : List ℚ).length : ℚ))) ∧
    (create_log_entry "q" "hi" [(2 : ℚ)/5, 1/10] 0 0 true none none "t").answer_preview = "hi" := by
  refine ⟨by simp, by decide, ?_, ?_⟩
  · exact (C8_log_entry "q" "hi" [(2 : ℚ)/5, 1/10] 0 0 true none none "t").1 (by simp)
  · exact (C8_log_entry "q" "hi" [(2 : ℚ)/5, 1/10] 0 0 true none none "t").2.2.1 (by decide)

/-! ## Learner profile: concepts -/

theorem record_concept_mem (p : LearnerProfile) (a c : String) :
    c ∈ (record_concept p a).concepts_asked ↔
      c ∈ p.concepts_asked ∨ (c ≠ "" ∧ c = a) := by
  rw [record_concept]
  split
  · next hcond =>
    dsimp only
    rw [List.mem_append]
    constructor
    · rintro (h | h)
      · exact Or.inl h
      · refine Or.inr ⟨?_, List.mem_singleton.mp h⟩
        rw [List.mem_singleton.mp h]
        exact hcond.1
    · rintro (h | ⟨-, rfl⟩)
      · exact Or.inl h
      · exact Or.inr (List.mem_singleton.mpr rfl)
  · next hcond =>
    constructor
    · exact Or.inl
    · rintro (h | ⟨hne, rfl⟩)
      · exact h
      · rcases not_and_or.mp hcond with h1 | h2
        · exact absurd hne (by simpa using h1)
        · simpa using h2

theorem record_concept_nodup (p : LearnerProfile) (a : String)
    (h : p.concepts_asked.Nodup) : (record_concept p a).concepts_asked.Nodup := by
  rw [record_concept]
  split
  · next hcond =>
    dsimp only
    simp [List.nodup_append, h, hcond.2]
  · exact h

theorem applyConcepts_mem_nodup (calls : List String) : ∀ (p : LearnerProfile),
    (∀ c, c ∈ (applyConcepts p calls).concepts_asked ↔
      c ∈ p.concepts_asked ∨ (c ≠ "" ∧ c ∈ calls)) ∧
    (p.concepts_asked.Nodup → (applyConcepts p calls).concepts_asked.Nodup) := by
  induction calls with
  | nil =>
    intro p
    refine ⟨fun c => ?_, fun h => h⟩
    simp [applyConcepts]
  | cons a t ih =>
    intro p
    have hstep : applyConcepts p (a :: t) = applyConcepts (record_concept p a) t := rfl
    rw [hstep]
    refine ⟨fun c => ?_, fun h => (ih (record_concept p a)).2 (record_concept_nodup p a h)⟩
    rw [(ih (record_concept p a)).1 c, record_concept_mem]
    constructor
    · rintro ((h | ⟨hne, rfl⟩) | ⟨hne, hmem⟩)
      · exact Or.inl h
      · exact Or.inr ⟨hne, List.mem_cons_self _ _⟩
      · exact Or.inr ⟨hne, List.mem_cons_of_mem _ hmem⟩
    · rintro (h | ⟨hne, hmem⟩)
      · exact Or.inl (Or.inl h)
      · rcases List.mem_cons.mp hmem with rfl | hmem'
        · exact Or.inl (Or.inr ⟨hne, rfl⟩)
        · exact Or.inr ⟨hne, hmem'⟩

theorem count_le_one_of_nodup (l : List String) (h : l.Nodup) (c : String) :
    l.count c ≤ 1 := by
  induction l with
  | nil => simp
  | cons a t ih =>
    rw [List.count_cons]
    have ha := (List.nodup_cons.mp h).1
    have ht := (List.nodup_cons.mp h).2
    by_cases hac : a = c
    · subst hac
      have hz : t.count a = 0 := List.count_eq_zero.mpr ha
      simp [hz]
    · have : (a == c) = false := beq_eq_false_iff_ne.mpr hac
      simp only [this, if_false]
      simpa using ih ht

/-- C9: `record_concept` is idempotent and order-preserving — a concept
already present (or empty) leaves the profile unchanged, a new non-empty
concept is appended at the tail; starting from a fresh profile,
`concepts_asked` holds exactly the non-empty recorded concepts, without
duplicates, and every `get_concept_frequency` value is at most 1. -/
theorem C9_record_concept_idempotent (p : LearnerProfile) (concept : String)
    (calls : List String) :
    (concept ∈ p.concepts_asked → record_concept p concept = p) ∧
    (concept ≠ "" → concept ∉ p.concepts_asked →
      (record_concept p concept).concepts_asked = p.concepts_asked ++ [concept]) ∧
    (applyConcepts defaultProfile calls).concepts_asked.Nodup ∧
    (∀ c, c ∈ (applyConcepts defaultProfile calls).concepts_asked ↔ (c ≠ "" ∧ c ∈ calls)) ∧
    (∀ c, get_concept_frequency (applyConcepts defaultProfile calls) c ≤ 1) := by
  have hbase := applyConcepts_mem_nodup calls defaultProfile
  have hnodup : (applyConcepts defaultProfile calls).concepts_asked.Nodup :=
    hbase.2 List.nodup_nil
  refine ⟨?_, ?_, hnodup, ?_, ?_⟩
  · intro hmem
    rw [record_concept, if_neg (fun hcond => hcond.2 hmem)]
  · intro hne hnot
    rw [record_concept, if_pos ⟨hne, hnot⟩]
  · intro c
    rw [hbase.1 c]
    simp [defaultProfile]
  · intro c
    exact count_le_one_of_nodup _ hnodup c

/-- Witness for C9: recording "x" twice keeps one copy, and the second
call leaves the profile unchanged. -/
theorem C9_record_concept_idempotent_witness :
    ("x" ∈ (record_concept defaultProfile "x").concepts_asked) ∧
    record_concept (record_concept defaultProfile "x") "x" =
      record_concept defaultProfile "x" ∧
    (record_concept defaultProfile "x").concepts_asked =
      defaultProfile.concepts_asked ++ ["x"] := by
  have h1 : (record_concept defaultProfile "x").concepts_asked = ["x"] := by
    rw [record_concept, if_pos (by simp [defaultProfile])]
    rfl
  have hmem : "x" ∈ (record_concept defaultProfile "x").concepts_asked := by
    rw [h1]
    exact List.mem_singleton.mpr rfl
  refine ⟨hmem, ?_, ?_⟩
  · exact (C9_record_concept_idempotent (record_concept defaultProfile "x") "x" []).1 hmem
  · exact (C9_record_concept_idempotent defaultProfile "x" []).2.1 (by simp)
      (by simp [defaultProfile])

/-! ## Learner profile: quiz scores and weak concepts -/

theorem record_quiz_score_weak_mono (p : LearnerProfile) (concept : String)
    (score max_score : ℚ) (ts : String) :
    p.weak_concepts ⊆ (record_quiz_score p concept score max_score ts).weak_concepts := by
  rw [record_quiz_score]
  dsimp only
  generalize (if 0 < max_score then round1 (score / max_score * 100) else 0) = pct
  split
  · exact List.subset_append_left _ _
  · exact List.Subset.refl _

theorem record_quiz_score_invariant (p : LearnerProfile) (concept : String)
    (score max_score : ℚ) (ts : String)
    (hInv : ∀ c, c ∈ p.weak_concepts ↔ 2 ≤ (p.quiz_scores.filter (isLowFor c)).length) :
    ∀ c, c ∈ (record_quiz_score p concept score max_score ts).weak_concepts ↔
      2 ≤ ((record_quiz_score p concept score max_score ts).quiz_scores.filter
        (isLowFor c)).length := by
  intro c
  rw [record_quiz_score]
  dsimp only
  generalize (if 0 < max_score then round1 (score / max_score * 100) else 0) = pct
  by_cases hc : c = concept
  · subst hc
    split
    · next hcond =>
      constructor
      · intro _
        exact hcond.1
      · intro _
        exact List.mem_append.mpr (Or.inr (List.mem_singleton.mpr rfl))
    · next hcond =>
      rcases not_and_or.mp hcond with h1 | h2
      · constructor
        · intro hmem
          have hold := (hInv c).mp hmem
          rw [List.filter_append, List.length_append]
          omega
        · intro hlen
          exact absurd hlen h1
      · have hmem : c ∈ p.weak_concepts := not_not.mp h2
        constructor
        · intro _
          have hold := (hInv c).mp hmem
          rw [List.filter_append, List.length_append]
          omega
        · intro _
          exact hmem
  · have he : isLowFor c (QuizEntry.mk concept score max_score pct ts) = false := by
      rw [isLowFor]
      have : (concept == c) = false := beq_eq_false_iff_ne.mpr (fun h => hc h.symm)
      rw [this]
      rfl
    conv_rhs => rw [List.filter_append]
    rw [show List.filter (isLowFor c) [QuizEntry.mk concept score max_score pct ts] = [] by
      simp [he]]
    rw [List.append_nil]
    split
    · next hcond =>
      rw [List.mem_append]
      constructor
      · rintro (h | h)
        · exact (hInv c).mp h
        · exact absurd (List.mem_singleton.mp h) hc
      · intro hlen
        exact Or.inl ((hInv c).mpr hlen)
    · exact hInv c

theorem applyQuiz_invariant (calls : List (String × ℚ × ℚ × String)) :
    ∀ (p : LearnerProfile),
    (∀ c, c ∈ p.weak_concepts ↔ 2 ≤ (p.quiz_scores.filter (isLowFor c)).length) →
    ∀ c, c ∈ (applyQuiz p calls).weak_concepts ↔
      2 ≤ ((applyQuiz p calls).quiz_scores.filter (isLowFor c)).length := by
  induction calls with
  | nil => intro p h; exact h
  | cons a t ih =>
    intro p h
    exact ih (record_quiz_score p a.1 a.2.1 a.2.2.1 a.2.2.2)
      (record_quiz_score_invariant p a.1 a.2.1 a.2.2.1 a.2.2.2 h)

theorem applyQuiz_pct (calls : List (String × ℚ × ℚ × String)) :
    ∀ (p : LearnerProfile),
    (∀ e ∈ p.quiz_scores, e.percentage =
      if 0 < e.max_score then round1 (100 * e.score / e.max_score) else 0) →
    ∀ e ∈ (applyQuiz p calls).quiz_scores, e.percentage =
      if 0 < e.max_score then round1 (100 * e.score / e.max_score) else 0 := by
  induction calls with
  | nil => intro p h; exact h
  | cons a t ih =>
    intro p h
    apply ih
    intro e he
    simp only [record_quiz_score] at he
    rcases List.mem_append.mp he with h1 | h2
    · exact h e h1
    · rw [List.mem_singleton.mp h2]
      dsimp only
      by_cases hm : 0 < a.2.2.1
      · rw [if_pos hm, if_pos hm, div_mul_eq_mul_div, mul_comm]
      · rw [if_neg hm, if_neg hm]

/-- C6 (amended): over any sequence of `record_quiz_score` calls on a
fresh profile, a concept is in `weak_concepts` exactly when at least 2
recorded entries for it have percentage < 50; `weak_concepts` is
monotone (no later call removes a flag); and each entry's percentage is
`round(100*score/max_score, 1)` when `max_score > 0` and 0 otherwise —
the zero branch applies to every non-positive `max_score`, not only to
`max_score = 0`. -/
theorem C6_weak_concepts_invariant (calls : List (String × ℚ × ℚ × String)) :
    (∀ c, c ∈ (applyQuiz defaultProfile calls).weak_concepts ↔
      2 ≤ ((applyQuiz defaultProfile calls).quiz_scores.filter (isLowFor c)).length) ∧
    (∀ (q : LearnerProfile) (concept : String) (score max_score : ℚ) (ts : String),
      q.weak_concepts ⊆ (record_quiz_score q concept score max_score ts).weak_concepts) ∧
    (∀ e ∈ (applyQuiz defaultProfile calls).quiz_scores,
      e.percentage = if 0 < e.max_score then round1 (100 * e.score / e.max_score) else 0) := by
  refine ⟨?_, fun q concept score max_score ts =>
    record_quiz_score_weak_mono q concept score max_score ts, ?_⟩
  · apply applyQuiz_invariant
    intro c
    simp [defaultProfile]
  · apply applyQuiz_pct
    intro e he
    simp [defaultProfile] at he

/-- C6 counterexample: at `max_score = -1` the recorded percentage is 0
(the source's else-branch fires for every non-positive `max_score`), but
the claimed formula `round(100*score/max_score, 1)` gives -100. -/
theorem C6_percentage_counterexample :
    ((record_quiz_score defaultProfile "X" 1 (-1) "t").quiz_scores.headD
      (QuizEntry.mk "" 0 0 0 "")).percentage ≠ round1 ((100 : ℚ) * 1 / (-1)) := by
  have h1 : ((record_quiz_score defaultProfile "X" 1 (-1) "t").quiz_scores.headD
      (QuizEntry.mk "" 0 0 0 "")).percentage = 0 := by
    rw [record_quiz_score]
    dsimp only
    rw [if_neg (by norm_num : ¬((0 : ℚ) < -1))]
    simp [defaultProfile]
  have h2 : round1 ((100 : ℚ) * 1 / (-1)) = -100 := by
    rw [show ((100 : ℚ) * 1 / (-1)) = ((-100 : ℤ) : ℚ) by norm_num, round1,
      show ((((-100 : ℤ) : ℚ)) * 10) = ((-1000 : ℤ) : ℚ) by norm_num, roundHalfEven_intCast]
    norm_num
  rw [h1, h2]
  norm_num

/-- Witness for C6 (amended) at one call with `max_score = 0`. -/
theorem C6_weak_concepts_invariant_witness :
    (QuizEntry.mk "X" 1 0 0 "t") ∈ (applyQuiz defaultProfile [("X", 1, 0, "t")]).quiz_scores ∧
    (QuizEntry.mk "X" 1 0 0 "t").percentage =
      (if 0 < (QuizEntry.mk "X" 1 0 0 "t").max_score then
        round1 (100 * (QuizEntry.mk "X" 1 0 0 "t").score / (QuizEntry.mk "X" 1 0 0 "t").max_score)
      else 0) := by
  have hqs : (applyQuiz defaultProfile [("X", 1, 0, "t")]).quiz_scores =
      [QuizEntry.mk "X" 1 0 0 "t"] := by
    show (record_quiz_score defaultProfile "X" 1 0 "t").quiz_scores = _
    rw [record_quiz_score]
    dsimp only
    rw [if_neg (lt_irrefl (0 : ℚ))]
    simp [defaultProfile]
  have hmem : (QuizEntry.mk "X" 1 0 0 "t") ∈
      (applyQuiz defaultProfile [("X", 1, 0, "t")]).quiz_scores := by
    rw [hqs]
    exact List.mem_singleton.mpr rfl
  exact ⟨hmem, (C6_weak_concepts_invariant [("X", 1, 0, "t")]).2.2 _ hmem⟩

/-! ## Ingestion -/

theorem ingestLoop_append {β π κ : Type} (hashFn : β → String)
    (load : β → Except String (List π)) (split : List π → List κ)
    (l₁ l₂ : List (String × β)) : ∀ (store : HashStore) (ing skip : ℕ) (docs : List κ),
    ingestLoop hashFn load split (l₁ ++ l₂) store ing skip docs =
      (match ingestLoop hashFn load split l₁ store ing skip docs with
      | .error e => .error e
      | .ok (ing', skip', docs', store') =>
        ingestLoop hashFn load split l₂ store' ing' skip' docs') := by
  induction l₁ with
  | nil => intro store ing skip docs; rfl
  | cons f t ih =>
    intro store ing skip docs
    obtain ⟨name, bytes⟩ := f
    rw [List.cons_append]
    by_cases hs : List.lookup name store = some (hashFn bytes)
    · rw [ingestLoop, if_pos hs]
      conv_rhs => rw [ingestLoop, if_pos hs]
      exact ih store ing (skip + 1) docs
    · rw [ingestLoop, if_neg hs]
      conv_rhs => rw [ingestLoop, if_neg hs]
      cases hload : load bytes with
      | error e => rfl
      | ok pages => exact ih ((name, hashFn bytes) :: store) (ing + 1) skip (docs ++ split pages)

/-- C3 counterexample: a batch of two files where the first fails to
parse.  The parse error aborts the whole call — `ingest_pdfs` returns
the error, no summary is produced and the second file is never
ingested — contradicting "the file is skipped and the remaining files
are still processed". -/
theorem C3_counterexample :
    ingest_pdfs (fun b : String => b)
      (fun b : String => if b = "BAD" then Except.error "parse" else Except.ok [b])
      (fun pages : List String => pages)
      [("f1", "BAD"), ("f2", "ok")] ([] : HashStore) = Except.error "parse" := rfl

/-- C3 (amended): if a file in the batch fails to parse and is not
hash-skipped, the exception propagates: `ingest_pdfs` returns that
error (no summary, no hash-store save), regardless of the files after
it.  Only the embedding step's batch semantics and the hash-skip logic
match the claim; per-file tolerance does not exist. -/
theorem C3_parse_error_aborts {β π κ : Type} (hashFn : β → String)
    (load : β → Except String (List π)) (split : List π → List κ)
    (pre post : List (String × β)) (name : String) (bytes : β) (store : HashStore)
    (e : String) (ing skip : ℕ) (docs : List κ) (store' : HashStore)
    (hpre : ingestLoop hashFn load split pre store 0 0 [] = .ok (ing, skip, docs, store'))
    (hnoskip : ¬(List.lookup name store' = some (hashFn bytes)))
    (hload : load bytes = .error e) :
    ingest_pdfs hashFn load split (pre ++ (name, bytes) :: post) store = .error e := by
  rw [ingest_pdfs, ingestLoop_append hashFn load split pre ((name, bytes) :: post)
    store 0 0 [], hpre]
  show (match ingestLoop hashFn load split ((name, bytes) :: post) store' ing skip docs with
    | Except.error e => Except.error e
    | Except.ok (ing', skip', docs', st) =>
      Except.ok (IngestSummary.mk ing' skip' docs'.length, st)) = Except.error e
  rw [ingestLoop, if_neg hnoskip, hload]

/-- Witness for C3 (amended): one good file, then a bad one, then
another good one. -/
theorem C3_parse_error_aborts_witness :
    (ingestLoop (fun b : String => b)
      (fun b : String => if b = "BAD" then Except.error "parse" else Except.ok [b])
      (fun pages : List String => pages) [("f0", "ok0")] ([] : HashStore) 0 0 [] =
      .ok (1, 0, ["ok0"], [("f0", "ok0")])) ∧
    ¬(List.lookup "f1" ([("f0", "ok0")] : HashStore) = some "BAD") ∧
    ((fun b : String => if b = "BAD" then Except.error "parse" else Except.ok [b]) "BAD" =
      Except.error "parse") ∧
    ingest_pdfs (fun b : String => b)
      (fun b : String => if b = "BAD" then Except.error "parse" else Except.ok [b])
      (fun pages : List String => pages)
      ([("f0", "ok0")] ++ ("f1", "BAD") :: [("f2", "ok2")]) ([] : HashStore) =
      Except.error "parse" := by
  refine ⟨rfl, by simp [List.lookup], rfl, ?_⟩
  exact C3_parse_error_aborts (fun b : String => b)
    (fun b : String => if b = "BAD" then Except.error "parse" else Except.ok [b])
    (fun pages : List String => pages) [("f0", "ok0")] [("f2", "ok2")] "f1" "BAD"
    ([] : HashStore) "parse" 1 0 ["ok0"] [("f0", "ok0")] rfl (by simp [List.lookup]) rfl

/-- C7: ingesting a file whose stored hash matches (in particular, the
same name and bytes ingested again right after a successful call) skips
it: the second call reports `skipped = 1`, `ingested = 0`, adds 0 chunks
to the index, and leaves the hash store — including that file's
record — unchanged. -/
theorem C7_reingest_skip {β π κ : Type} (hashFn : β → String)
    (load : β → Except String (List π)) (split : List π → List κ)
    (name : String) (bytes : β) (store : HashStore) (pages : List π)
    (s1 : IngestSummary) (st1 : HashStore)
    (hload : load bytes = .ok pages)
    (h1 : ingest_pdfs hashFn load split [(name, bytes)] store = .ok (s1, st1)) :
    ingest_pdfs hashFn load split [(name, bytes)] st1 =
      .ok (IngestSummary.mk 0 1 0, st1) ∧
    List.lookup name st1 = some (hashFn bytes) := by
  by_cases hs : List.lookup name store = some (hashFn bytes)
  · have hfirst : ingest_pdfs hashFn load split [(name, bytes)] store =
        .ok (IngestSummary.mk 0 1 0, store) := by
      rw [ingest_pdfs, ingestLoop, if_pos hs]
      rfl
    rw [hfirst] at h1
    have hst : store = st1 := congrArg Prod.snd (Except.ok.inj h1)
    constructor
    · rw [← hst]
      exact hfirst
    · rw [← hst]
      exact hs
  · have hfirst : ingest_pdfs hashFn load split [(name, bytes)] store =
        .ok (IngestSummary.mk 1 0 (split pages).length, (name, hashFn bytes) :: store) := by
      rw [ingest_pdfs, ingestLoop, if_neg hs, hload]
      rfl
    rw [hfirst] at h1
    have hst : ((name, hashFn bytes) :: store : HashStore) = st1 :=
      congrArg Prod.snd (Except.ok.inj h1)
    have hlookup : List.lookup name st1 = some (hashFn bytes) := by
      rw [← hst]
      simp [List.lookup]
    refine ⟨?_, hlookup⟩
    rw [ingest_pdfs, ingestLoop, if_pos hlookup]
    rfl

/-- Witness for C7: the file ("f", "data") ingested from an empty store,
then ingested again. -/
theorem C7_reingest_skip_witness :
    ((fun b : String => Except.ok (ε := String) [b]) "data" = Except.ok ["data"]) ∧
    (ingest_pdfs (fun b : String => b) (fun b : String => Except.ok [b])
      (fun pages : List String => pages) [("f", "data")] ([] : HashStore) =
      .ok (IngestSummary.mk 1 0 1, [("f", "data")])) ∧
    ingest_pdfs (fun b : String => b) (fun b : String => Except.ok [b])
      (fun pages : List String => pages) [("f", "data")] ([("f", "data")] : HashStore) =
      .ok (IngestSummary.mk 0 1 0, [("f", "data")]) ∧
    List.lookup "f" ([("f", "data")] : HashStore) = some "data" := by
  refine ⟨rfl, rfl, ?_⟩
  exact C7_reingest_skip (fun b : String => b) (fun b : String => Except.ok [b])
    (fun pages : List String => pages) "f" "data" ([] : HashStore) ["data"]
    (IngestSummary.mk 1 0 1) [("f", "data")] rfl rfl
